import Mathlib

/-!
Verification of the variant-resolution / prop-merge engine and the slot
composer described by the `use-styled` documentation (the repository is a
documentation site; the engine itself is specified declaratively in the
docs, so the executable model below is built from that specification).
-/

namespace UseStyled

/-- A shallow style object: an association list from CSS property names to
rendered values.  Style objects are shallow-merged, later keys overwriting
earlier ones. -/
abbrev Style := List (String × String)

/-- Modelled from the spec: the value of a prop in a prop bag (the
`use-styled` library implementation is not part of the repository sources).
Per the spec's data model, a value is plain data, a class-name string
(modelled as its list of utility-class tokens), a style object, or a
function (event handler).  Functions are modelled by the ordered list of
identifiers of the atomic handlers captured in the composed chain, so that
invocation order and multiplicity are observable. -/
inductive Value where
  | data : String → Value
  | cls : List String → Value
  | sty : Style → Value
  | fn : List Nat → Value
deriving DecidableEq

/-- A prop bag: an unordered mapping from prop name to value, modelled as an
association list looked up by first match. -/
abbrev Bag := List (String × Value)

/-- First-match association-list lookup. -/
def lookp {α : Type} (k : String) : List (String × α) → Option α
  | [] => none
  | (k2, v) :: rest => if k = k2 then some v else lookp k rest

/-- Modelled from the spec: shallow merge of two style objects; keys of the
second (later) object overwrite keys of the first. -/
def mergeStyle (a b : Style) : Style :=
  a.filter (fun p => (lookp p.1 b).isNone) ++ b

/-- Modelled from the spec: merge of two values of the same prop name, the
second coming from a later bag.  Class-name token lists are concatenated
(conflict resolution happens once at the end, see `twMerge`), style objects
are shallow-merged, function chains are concatenated in order, and any other
combination is last-writer-wins. -/
def merge2 : Value → Value → Value
  | Value.cls a, Value.cls b => Value.cls (a ++ b)
  | Value.sty a, Value.sty b => Value.sty (mergeStyle a b)
  | Value.fn a, Value.fn b => Value.fn (a ++ b)
  | _, v => v

/-- Merge one entry of the earlier bag with the later bag's entry of the
same name, when the later bag has one. -/
def mergeInto (b2 : Bag) (p : String × Value) : String × Value :=
  match lookp p.1 b2 with
  | some w => (p.1, merge2 p.2 w)
  | none => p

/-- Modelled from the spec: field-by-field merge of two prop bags, the second
bag being the later one. -/
def mergeBags (b1 b2 : Bag) : Bag :=
  b1.map (mergeInto b2) ++ b2.filter (fun p => (lookp p.1 b1).isNone)

/-- Modelled from the spec: the class-name conflict resolution performed by
`tailwind-merge`, parameterised by the function `g` assigning each utility
class its conflict group.  A token survives iff no later token belongs to the
same group, so within each group the last-declared class wins and
non-conflicting classes all survive (deduplicated). -/
def twMerge (g : String → String) : List String → List String
  | [] => []
  | t :: ts =>
      if ts.any (fun u => decide (g u = g t)) then twMerge g ts
      else t :: twMerge g ts

/-- Apply the final class-name conflict resolution to a merged value. -/
def finalizeValue (g : String → String) : Value → Value
  | Value.cls ts => Value.cls (twMerge g ts)
  | v => v

/-- Apply the final class-name conflict resolution to every field of a bag. -/
def finalize (g : String → String) (b : Bag) : Bag :=
  b.map (fun p => (p.1, finalizeValue g p.2))

/-- Modelled from the spec: one compound-variant entry, pairing the
variant-name/value conditions that must all match with the prop bag (its
`props` field; class names or styles given directly on the entry are sugar
normalised into that bag) applied when they do. -/
structure CompoundVariant where
  conditions : List (String × String)
  props : Bag
deriving DecidableEq

/-- Modelled from the spec: the configuration accepted by `useStyled` (the
library implementation is not part of the repository sources).  Variant
values (strings or booleans) are modelled as strings. -/
structure Config where
  base : Bag := []
  variants : List (String × List (String × Bag)) := []
  defaultVariants : List (String × String) := []
  compoundVariants : List CompoundVariant := []
deriving DecidableEq

/-- The variant value a call-prop value denotes, when it denotes one. -/
def valueAsVariant : Value → Option String
  | Value.data s => some s
  | _ => none

/-- Modelled from the spec: the effective value of a variant name - defined
only for declared variant names, taken from the call props when present
there, else from `defaultVariants`, else absent. -/
def effectiveValue (cfg : Config) (cp : Bag) (n : String) : Option String :=
  if (lookp n cfg.variants).isSome then
    match lookp n cp with
    | some v => valueAsVariant v
    | none => lookp n cfg.defaultVariants
  else none

/-- The prop bag a single declared variant contributes: the bag registered
under its effective value, if any. -/
def variantContribution (cfg : Config) (cp : Bag) (n : String)
    (m : List (String × Bag)) : Option Bag :=
  (effectiveValue cfg cp n).bind (fun v => lookp v m)

/-- Modelled from the spec: the prop bags contributed by the declared
variants, in declaration order. -/
def variantBags (cfg : Config) (cp : Bag) : List Bag :=
  cfg.variants.filterMap (fun p => variantContribution cfg cp p.1 p.2)

/-- Whether a single compound-variant condition matches the effective variant
values. -/
def condMatches (cfg : Config) (cp : Bag) (c : String × String) : Bool :=
  decide (effectiveValue cfg cp c.1 = some c.2)

/-- Modelled from the spec: a compound-variant entry applies iff every one of
its conditions matches the effective variant values. -/
def compoundMatches (cfg : Config) (cp : Bag) (cv : CompoundVariant) : Bool :=
  cv.conditions.all (condMatches cfg cp)

/-- The prop bags contributed by the matching compound-variant entries, in
declared order. -/
def compoundBags (cfg : Config) (cp : Bag) : List Bag :=
  (cfg.compoundVariants.filter (compoundMatches cfg cp)).map
    (fun cv => cv.props)

/-- Modelled from the spec: the call props with variant-name keys removed;
the remaining entries are pass-through props. -/
def passThrough (cfg : Config) (cp : Bag) : Bag :=
  cp.filter (fun p => (lookp p.1 cfg.variants).isNone)

/-- Modelled from the spec: the ordered list of prop bags to merge - base,
then active variants, then matching compound variants, then the pass-through
call props. -/
def orderedBags (cfg : Config) (cp : Bag) : List Bag :=
  cfg.base :: (variantBags cfg cp ++ compoundBags cfg cp ++ [passThrough cfg cp])

/-- Modelled from the spec: the variant resolver
`resolve(config, callProps) = mergedProps` of the `use-styled` library (whose
implementation is not part of the repository sources): fold the ordered bags
together field by field and resolve class-name conflicts at the end. -/
def resolve (g : String → String) (cfg : Config) (cp : Bag) : Bag :=
  finalize g ((orderedBags cfg cp).foldl mergeBags [])

/-- Invoking a composed function chain with an argument: each captured
handler fires once, in chain order, with that same argument; the result is
the observable call trace. -/
def invoke (fs : List Nat) (arg : String) : List (Nat × String) :=
  fs.map (fun f => (f, arg))

/-- The values contributed for a given prop name by the bags of each layer,
in layer order. -/
def layerValues (k : String) (bags : List Bag) : List Value :=
  bags.filterMap (fun b => lookp k b)

/-- Fold a nonempty list of contributed values for one prop name into the
merged value. -/
def mergeVals : List Value → Option Value
  | [] => none
  | v :: vs => some (vs.foldl merge2 v)

/-- Merge of two optional per-layer values. -/
def omerge : Option Value → Option Value → Option Value
  | some v, some w => some (merge2 v w)
  | some v, none => some v
  | none, w => w

/-- A concrete utility-class conflict-group assignment for the spec's
className example: the px-2 and px-6 spacing utilities form one group and
every other class is its own group. -/
def twGroupPx : String → String :=
  fun s => if s = "px-2" ∨ s = "px-6" then "px" else s

/-- Modelled from the spec: a styled (or compound) unit - the underlying
primitive name, the resolver configuration governing its invocation
behaviour, and the slots attached as static properties. -/
inductive StyledUnit where
  | mk : String → Config → List (String × StyledUnit) → StyledUnit

/-- Modelled from the spec: `useStyled(component, config)` - a styled unit
with no attached slots. -/
def useStyled (component : String) (cfg : Config) : StyledUnit :=
  StyledUnit.mk component cfg []

/-- Modelled from the spec: `useSlot(rootUnit, slotMap)` (the library
implementation is not part of the repository sources) - the root unit with
each slot-map entry attached as a named static property, new entries taking
precedence over existing ones of the same name; invocation behaviour is
untouched. -/
def useSlot : StyledUnit → List (String × StyledUnit) → StyledUnit
  | StyledUnit.mk c cfg slots, m => StyledUnit.mk c cfg (m ++ slots)

/-- Addressing an attached slot: `unit.SlotName`. -/
def StyledUnit.getSlot : StyledUnit → String → Option StyledUnit
  | StyledUnit.mk _ _ slots, n => lookp n slots

/-- Invoking a unit with call props: the resolver applied to the unit's
configuration. -/
def StyledUnit.invokeWith : StyledUnit → (String → String) → Bag → Bag
  | StyledUnit.mk _ cfg _, g, cp => resolve g cfg cp

/-! ### Lookup lemmas -/

theorem lookp_nil {α : Type} (k : String) : lookp (α := α) k [] = none := rfl

theorem lookp_cons {α : Type} (k k2 : String) (v : α) (l : List (String × α)) :
    lookp k ((k2, v) :: l) = if k = k2 then some v else lookp k l := rfl

theorem lookp_append_some {α : Type} {k : String} {a : List (String × α)}
    {v : α} (b : List (String × α)) (h : lookp k a = some v) :
    lookp k (a ++ b) = some v := by
  induction a with
  | nil => simp [lookp] at h
  | cons p rest ih =>
    obtain ⟨k2, w⟩ := p
    by_cases hk : k = k2
    · simpa [lookp, hk] using h
    · rw [lookp] at h
      rw [List.cons_append, lookp]
      simp only [if_neg hk] at h ⊢
      exact ih h

theorem lookp_append_none {α : Type} {k : String} {a : List (String × α)}
    (b : List (String × α)) (h : lookp k a = none) :
    lookp k (a ++ b) = lookp k b := by
  induction a with
  | nil => rfl
  | cons p rest ih =>
    obtain ⟨k2, w⟩ := p
    by_cases hk : k = k2
    · simp [lookp, hk] at h
    · rw [lookp] at h
      rw [List.cons_append, lookp]
      simp only [if_neg hk] at h ⊢
      exact ih h

theorem lookp_filter_congr {α : Type} {k : String} (p q : String × α → Bool)
    (l : List (String × α)) (h : ∀ v, p (k, v) = q (k, v)) :
    lookp k (l.filter p) = lookp k (l.filter q) := by
  induction l with
  | nil => rfl
  | cons e rest ih =>
    obtain ⟨k2, w⟩ := e
    by_cases hk : k = k2
    · subst hk
      rcases hp : p (k, w) with _ | _
      · rw [List.filter_cons_of_neg, List.filter_cons_of_neg]
        · exact ih
        · simp [← h, hp]
        · simp [hp]
      · rw [List.filter_cons_of_pos, List.filter_cons_of_pos]
        · rw [lookp, if_pos rfl, lookp, if_pos rfl]
        · simp [← h, hp]
        · simp [hp]
    · rcases hp : p (k2, w) with _ | _ <;> rcases hq : q (k2, w) with _ | _
      · rw [List.filter_cons_of_neg, List.filter_cons_of_neg]
        · exact ih
        · simp [hq]
        · simp [hp]
      · rw [List.filter_cons_of_neg, List.filter_cons_of_pos]
        · rw [lookp, if_neg hk]; exact ih
        · simp [hq]
        · simp [hp]
      · rw [List.filter_cons_of_pos, List.filter_cons_of_neg]
        · rw [lookp, if_neg hk]; exact ih
        · simp [hq]
        · simp [hp]
      · rw [List.filter_cons_of_pos, List.filter_cons_of_pos]
        · rw [lookp, if_neg hk, lookp, if_neg hk]; exact ih
        · simp [hq]
        · simp [hp]

theorem lookp_filter_all {α : Type} {k : String} (p : String × α → Bool)
    (l : List (String × α)) (h : ∀ v, p (k, v) = true) :
    lookp k (l.filter p) = lookp k l := by
  have h1 := lookp_filter_congr p (fun _ => true) l (by simpa using h)
  simpa using h1

theorem lookp_filter_none {α : Type} {k : String} (p : String × α → Bool)
    (l : List (String × α)) (h : ∀ v, p (k, v) = false) :
    lookp k (l.filter p) = none := by
  have h1 := lookp_filter_congr p (fun _ => false) l (by simpa using h)
  simpa using h1

/-! ### Merge lemmas -/

theorem lookp_cons_self {α : Type} (k : String) (v : α) (l : List (String × α)) :
    lookp k ((k, v) :: l) = some v := by
  rw [lookp, if_pos rfl]

theorem lookp_cons_ne {α : Type} {k k2 : String} (h : k ≠ k2) (v : α)
    (l : List (String × α)) : lookp k ((k2, v) :: l) = lookp k l := by
  rw [lookp, if_neg h]

theorem mergeBags_nil_left (b : Bag) : mergeBags [] b = b := by
  unfold mergeBags
  simp [lookp]

theorem mergeInto_pair (b2 : Bag) (k : String) (v : Value) :
    mergeInto b2 (k, v) =
      (k, match lookp k b2 with
          | some w => merge2 v w
          | none => v) := by
  unfold mergeInto
  cases lookp k b2 <;> rfl

theorem lookp_mergeBags (k : String) (b1 b2 : Bag) :
    lookp k (mergeBags b1 b2) = omerge (lookp k b1) (lookp k b2) := by
  induction b1 with
  | nil =>
    rw [mergeBags_nil_left, lookp_nil]
    cases lookp k b2 <;> rfl
  | cons p rest ih =>
    obtain ⟨k1, v1⟩ := p
    have hstep :
        mergeBags ((k1, v1) :: rest) b2 =
          mergeInto b2 (k1, v1) :: (rest.map (mergeInto b2) ++
            b2.filter (fun p => (lookp p.1 ((k1, v1) :: rest)).isNone)) := by
      unfold mergeBags
      rw [List.map_cons, List.cons_append]
    by_cases hk : k = k1
    · subst hk
      rw [hstep, mergeInto_pair, lookp_cons_self, lookp_cons_self]
      cases lookp k b2 <;> rfl
    · rw [hstep, mergeInto_pair, lookp_cons_ne hk, lookp_cons_ne hk]
      have hfilter :
          lookp k (b2.filter (fun p => (lookp p.1 ((k1, v1) :: rest)).isNone)) =
            lookp k (b2.filter (fun p => (lookp p.1 rest).isNone)) := by
        apply lookp_filter_congr
        intro v
        rw [lookp_cons_ne hk]
      have hunf :
          mergeBags rest b2 =
            rest.map (mergeInto b2) ++
              b2.filter (fun p => (lookp p.1 rest).isNone) := rfl
      rw [hunf] at ih
      cases hmap : lookp k (rest.map (mergeInto b2)) with
      | some w =>
        rw [lookp_append_some _ hmap] at ih ⊢
        exact ih
      | none =>
        rw [lookp_append_none _ hmap] at ih ⊢
        rw [hfilter]
        exact ih

theorem lookp_foldl_mergeBags (k : String) (bags : List Bag) :
    ∀ acc : Bag, lookp k (bags.foldl mergeBags acc) =
      (bags.map (fun b => lookp k b)).foldl omerge (lookp k acc) := by
  induction bags with
  | nil => intro acc; rfl
  | cons b bs ih =>
    intro acc
    rw [List.foldl_cons, List.map_cons, List.foldl_cons, ih, lookp_mergeBags]

theorem foldl_omerge_some (opts : List (Option Value)) :
    ∀ a : Value, opts.foldl omerge (some a) =
      some (opts.reduceOption.foldl merge2 a) := by
  induction opts with
  | nil => intro a; rfl
  | cons o rest ih =>
    intro a
    cases o with
    | none => rw [List.foldl_cons, List.reduceOption_cons_of_none]; exact ih a
    | some v =>
      rw [List.foldl_cons, List.reduceOption_cons_of_some, List.foldl_cons]
      exact ih (merge2 a v)

theorem foldl_omerge_none (opts : List (Option Value)) :
    opts.foldl omerge none = mergeVals opts.reduceOption := by
  induction opts with
  | nil => rfl
  | cons o rest ih =>
    cases o with
    | none => rw [List.foldl_cons, List.reduceOption_cons_of_none]; exact ih
    | some v =>
      rw [List.foldl_cons, List.reduceOption_cons_of_some]
      exact foldl_omerge_some rest v

theorem reduceOption_map_lookp (k : String) (bags : List Bag) :
    (bags.map (fun b => lookp k b)).reduceOption = layerValues k bags := by
  induction bags with
  | nil => rfl
  | cons b bs ih =>
    rw [List.map_cons, layerValues, List.filterMap_cons]
    cases h : lookp k b with
    | none => rw [List.reduceOption_cons_of_none]; simpa [layerValues] using ih
    | some v => rw [List.reduceOption_cons_of_some]; simpa [layerValues] using ih

theorem lookp_finalize (g : String → String) (k : String) (b : Bag) :
    lookp k (finalize g b) = (lookp k b).map (finalizeValue g) := by
  induction b with
  | nil => rfl
  | cons p rest ih =>
    obtain ⟨k2, v⟩ := p
    by_cases hk : k = k2
    · subst hk
      rw [finalize, List.map_cons, lookp, if_pos rfl, lookp, if_pos rfl]
      rfl
    · rw [finalize, List.map_cons, lookp, if_neg hk, lookp, if_neg hk]
      exact ih

/-- For every prop name, the resolved value is the fold of the values
contributed by each layer in order, followed by the final class-name
conflict resolution. -/
theorem lookp_resolve (g : String → String) (cfg : Config) (cp : Bag)
    (k : String) :
    lookp k (resolve g cfg cp) =
      (mergeVals (layerValues k (orderedBags cfg cp))).map (finalizeValue g) := by
  rw [resolve, lookp_finalize, lookp_foldl_mergeBags, lookp_nil,
    foldl_omerge_none, reduceOption_map_lookp]

/-! ### Per-kind value merge lemmas -/

theorem merge2_data (v : Value) (s : String) :
    merge2 v (Value.data s) = Value.data s := by
  cases v <;> rfl

theorem mergeVals_last_data (ws : List Value) (s : String) :
    mergeVals (ws ++ [Value.data s]) = some (Value.data s) := by
  cases ws with
  | nil => rfl
  | cons w rest =>
    rw [List.cons_append, mergeVals, List.foldl_append, List.foldl_cons,
      List.foldl_nil, merge2_data]

theorem foldl_merge2_fn (ls : List (List Nat)) :
    ∀ a : List Nat, List.foldl merge2 (Value.fn a) (ls.map Value.fn) =
      Value.fn (a ++ ls.flatten) := by
  induction ls with
  | nil => intro a; simp
  | cons l rest ih =>
    intro a
    rw [List.map_cons, List.foldl_cons]
    have h1 : merge2 (Value.fn a) (Value.fn l) = Value.fn (a ++ l) := rfl
    rw [h1, ih (a ++ l), List.flatten_cons, List.append_assoc]

theorem mergeVals_fn (ls : List (List Nat)) (h : ls ≠ []) :
    mergeVals (ls.map Value.fn) = some (Value.fn ls.flatten) := by
  cases ls with
  | nil => exact absurd rfl h
  | cons l rest =>
    rw [List.map_cons, mergeVals, foldl_merge2_fn, List.flatten_cons]

theorem foldl_merge2_cls (ls : List (List String)) :
    ∀ a : List String, List.foldl merge2 (Value.cls a) (ls.map Value.cls) =
      Value.cls (a ++ ls.flatten) := by
  induction ls with
  | nil => intro a; simp
  | cons l rest ih =>
    intro a
    rw [List.map_cons, List.foldl_cons]
    have h1 : merge2 (Value.cls a) (Value.cls l) = Value.cls (a ++ l) := rfl
    rw [h1, ih (a ++ l), List.flatten_cons, List.append_assoc]

theorem mergeVals_cls (ls : List (List String)) (h : ls ≠ []) :
    mergeVals (ls.map Value.cls) = some (Value.cls ls.flatten) := by
  cases ls with
  | nil => exact absurd rfl h
  | cons l rest =>
    rw [List.map_cons, mergeVals, foldl_merge2_cls, List.flatten_cons]

theorem foldl_merge2_sty (ms : List Style) :
    ∀ m : Style, List.foldl merge2 (Value.sty m) (ms.map Value.sty) =
      Value.sty (ms.foldl mergeStyle m) := by
  induction ms with
  | nil => intro m; rfl
  | cons st rest ih =>
    intro m
    rw [List.map_cons, List.foldl_cons, List.foldl_cons]
    have h1 : merge2 (Value.sty m) (Value.sty st) = Value.sty (mergeStyle m st) := rfl
    rw [h1, ih (mergeStyle m st)]

theorem mergeVals_sty (m : Style) (ms : List Style) :
    mergeVals ((m :: ms).map Value.sty) = some (Value.sty (ms.foldl mergeStyle m)) := by
  rw [List.map_cons, mergeVals, foldl_merge2_sty]

/-! ### Style merge lemmas -/

theorem lookp_mergeStyle_some {x : String} {b : Style} {w : String}
    (a : Style) (h : lookp x b = some w) :
    lookp x (mergeStyle a b) = some w := by
  unfold mergeStyle
  have hdrop : lookp x (a.filter (fun p => (lookp p.1 b).isNone)) = none := by
    apply lookp_filter_none
    intro v
    simp [h]
  rw [lookp_append_none _ hdrop, h]

theorem lookp_mergeStyle_none {x : String} {b : Style}
    (a : Style) (h : lookp x b = none) :
    lookp x (mergeStyle a b) = lookp x a := by
  unfold mergeStyle
  have hkeep : lookp x (a.filter (fun p => (lookp p.1 b).isNone)) = lookp x a := by
    apply lookp_filter_all
    intro v
    simp [h]
  cases ha : lookp x a with
  | none => rw [lookp_append_none _ (hkeep.trans ha), h]
  | some v => exact lookp_append_some _ (hkeep.trans ha)

theorem lookp_foldl_mergeStyle (x : String) (ms : List Style) :
    ∀ m : Style, lookp x (ms.foldl mergeStyle m) =
      ms.foldl (fun a st =>
        match lookp x st with
        | some w => some w
        | none => a) (lookp x m) := by
  induction ms with
  | nil => intro m; rfl
  | cons st rest ih =>
    intro m
    rw [List.foldl_cons, List.foldl_cons, ih (mergeStyle m st)]
    cases hst : lookp x st with
    | none => rw [lookp_mergeStyle_none _ hst]
    | some w => rw [lookp_mergeStyle_some _ hst]

/-! ### Class-name conflict resolution lemmas -/

theorem twMerge_filter (g : String → String) (ts : List String) (c : String) :
    (twMerge g ts).filter (fun u => decide (g u = c)) =
      ((ts.filter (fun u => decide (g u = c))).getLast?).toList := by
  induction ts with
  | nil => rfl
  | cons t ts ih =>
    by_cases hany : ts.any (fun u => decide (g u = g t)) = true
    · have hstep : twMerge g (t :: ts) = twMerge g ts := by
        rw [twMerge, if_pos hany]
      by_cases hc : g t = c
      · obtain ⟨u, hu, hgu⟩ := List.any_eq_true.mp hany
        have hgu2 : g u = c := (of_decide_eq_true hgu).trans hc
        have humem : u ∈ ts.filter (fun u => decide (g u = c)) :=
          List.mem_filter.mpr ⟨hu, decide_eq_true hgu2⟩
        have hne : ts.filter (fun u => decide (g u = c)) ≠ [] :=
          List.ne_nil_of_mem humem
        rw [hstep, ih, List.filter_cons_of_pos (by simpa using hc)]
        cases hft : ts.filter (fun u => decide (g u = c)) with
        | nil => exact absurd hft hne
        | cons h2 t2 => rw [List.getLast?_cons_cons]
      · rw [hstep, ih, List.filter_cons_of_neg (by simpa using hc)]
    · have hstep : twMerge g (t :: ts) = t :: twMerge g ts := by
        rw [twMerge, if_neg hany]
      by_cases hc : g t = c
      · have hempty : ts.filter (fun u => decide (g u = c)) = [] := by
          rw [List.filter_eq_nil_iff]
          intro u hu
          intro hdec
          apply hany
          refine List.any_eq_true.mpr ⟨u, hu, ?_⟩
          exact decide_eq_true ((of_decide_eq_true hdec).trans hc.symm)
        have hemptytw : (twMerge g ts).filter (fun u => decide (g u = c)) = [] := by
          rw [ih, hempty]
          rfl
        rw [hstep, List.filter_cons_of_pos (by simpa using hc), hemptytw,
          List.filter_cons_of_pos (by simpa using hc), hempty]
        rfl
      · rw [hstep, List.filter_cons_of_neg (by simpa using hc), ih,
          List.filter_cons_of_neg (by simpa using hc)]

theorem twMerge_subset (g : String → String) (ts : List String) :
    ∀ u ∈ twMerge g ts, u ∈ ts := by
  induction ts with
  | nil => intro u hu; exact absurd hu (by simp [twMerge])
  | cons t ts ih =>
    intro u hu
    by_cases hany : ts.any (fun w => decide (g w = g t)) = true
    · rw [twMerge, if_pos hany] at hu
      exact List.mem_cons_of_mem t (ih u hu)
    · rw [twMerge, if_neg hany] at hu
      rcases List.mem_cons.mp hu with h | h
      · exact h ▸ List.mem_cons_self t ts
      · exact List.mem_cons_of_mem t (ih u h)

/-! ### Layer-value lemmas -/

theorem layerValues_cons (k : String) (b : Bag) (bs : List Bag) :
    layerValues k (b :: bs) =
      match lookp k b with
      | some v => v :: layerValues k bs
      | none => layerValues k bs := by
  unfold layerValues
  rw [List.filterMap_cons]
  cases lookp k b <;> rfl

theorem mergeVals_toList (o : Option Value) : mergeVals o.toList = o := by
  cases o <;> rfl

theorem layerValues_eq_toList (k : String) (bs : List Bag) (b : Bag)
    (h : ∀ x ∈ bs, lookp k x = none) :
    layerValues k (bs ++ [b]) = (lookp k b).toList := by
  induction bs with
  | nil =>
    rw [List.nil_append, layerValues_cons]
    cases lookp k b <;> rfl
  | cons x rest ih =>
    rw [List.cons_append, layerValues_cons, h x (List.mem_cons_self x rest)]
    exact ih (fun y hy => h y (List.mem_cons_of_mem x hy))

theorem orderedBags_snoc (cfg : Config) (cp : Bag) :
    orderedBags cfg cp =
      (cfg.base :: (variantBags cfg cp ++ compoundBags cfg cp)) ++
        [passThrough cfg cp] := rfl

theorem lookp_resolve_eq_pass (g : String → String) (cfg : Config) (cp : Bag)
    (k : String) (hbase : lookp k cfg.base = none)
    (hvar : ∀ b ∈ variantBags cfg cp, lookp k b = none)
    (hcomp : ∀ b ∈ compoundBags cfg cp, lookp k b = none) :
    lookp k (resolve g cfg cp) =
      (lookp k (passThrough cfg cp)).map (finalizeValue g) := by
  rw [lookp_resolve]
  have hlv : layerValues k (orderedBags cfg cp) =
      (lookp k (passThrough cfg cp)).toList := by
    rw [orderedBags_snoc]
    apply layerValues_eq_toList
    intro x hx
    rcases List.mem_cons.mp hx with h | h
    · exact h ▸ hbase
    · rcases List.mem_append.mp h with h2 | h2
      · exact hvar x h2
      · exact hcomp x h2
  rw [hlv, mergeVals_toList]

theorem passThrough_lookp_declared (cfg : Config) (cp : Bag) (k : String)
    (h : (lookp k cfg.variants).isSome = true) :
    lookp k (passThrough cfg cp) = none := by
  unfold passThrough
  apply lookp_filter_none
  intro v
  simp only []
  cases hv : lookp k cfg.variants with
  | none => rw [hv] at h; exact absurd h (by simp)
  | some m => rfl

theorem passThrough_lookp_undeclared (cfg : Config) (cp : Bag) (k : String)
    (h : (lookp k cfg.variants).isSome = false) :
    lookp k (passThrough cfg cp) = lookp k cp := by
  unfold passThrough
  apply lookp_filter_all
  intro v
  simp only []
  cases hv : lookp k cfg.variants with
  | none => rfl
  | some m => rw [hv] at h; exact absurd h (by simp)

/-! ### Claim theorems -/

/-- C1 (amended): for every configuration and call-prop set, the resolved
output observes the precedence order base, variant, compound variant, direct
prop: a field whose last contributing layer supplies a plain-data value
resolves to that last layer's value; a field all of whose contributing layers
are function-valued resolves to the composition of all layers in that order;
a className field resolves to the concatenation of all layers' classes in
that order with utility-group conflicts resolved toward the later layer; a
style field resolves to the shallow merge in which later layers' keys
overwrite earlier ones. -/
theorem resolve_precedence (g : String → String) (cfg : Config) (cp : Bag)
    (k : String) :
    (∀ ws s, layerValues k (orderedBags cfg cp) = ws ++ [Value.data s] →
        lookp k (resolve g cfg cp) = some (Value.data s)) ∧
    (∀ ls : List (List Nat), ls ≠ [] →
        layerValues k (orderedBags cfg cp) = ls.map Value.fn →
        lookp k (resolve g cfg cp) = some (Value.fn ls.flatten)) ∧
    (∀ ts : List (List String), ts ≠ [] →
        layerValues k (orderedBags cfg cp) = ts.map Value.cls →
        lookp k (resolve g cfg cp) = some (Value.cls (twMerge g ts.flatten))) ∧
    (∀ (m : Style) (ms : List Style),
        layerValues k (orderedBags cfg cp) = (m :: ms).map Value.sty →
        lookp k (resolve g cfg cp) = some (Value.sty (ms.foldl mergeStyle m)) ∧
        ∀ x, lookp x (ms.foldl mergeStyle m) =
          ms.foldl (fun a st =>
            match lookp x st with
            | some w => some w
            | none => a) (lookp x m)) := by
  refine ⟨?_, ?_, ?_, ?_⟩
  · intro ws s h
    rw [lookp_resolve, h, mergeVals_last_data]
    rfl
  · intro ls hne h
    rw [lookp_resolve, h, mergeVals_fn ls hne]
    rfl
  · intro ts hne h
    rw [lookp_resolve, h, mergeVals_cls ts hne]
    rfl
  · intro m ms h
    refine ⟨?_, fun x => lookp_foldl_mergeStyle x ms m⟩
    rw [lookp_resolve, h, mergeVals_sty]
    rfl

/-- C1 witness: concrete instances for the plain-data and function clauses of
`resolve_precedence`. -/
theorem resolve_precedence_witness :
    lookp "id" (resolve (fun s => s)
        { base := [("id", Value.data "x")] } [("id", Value.data "y")]) =
      some (Value.data "y") ∧
    lookp "onClick" (resolve (fun s => s)
        { base := [("onClick", Value.fn [1])] } [("onClick", Value.fn [2])]) =
      some (Value.fn ([[1], [2]] : List (List Nat)).flatten) :=
  ⟨(resolve_precedence (fun s => s)
      { base := [("id", Value.data "x")] } [("id", Value.data "y")] "id").1
      [Value.data "x"] "y" (by decide),
   (resolve_precedence (fun s => s)
      { base := [("onClick", Value.fn [1])] } [("onClick", Value.fn [2])]
      "onClick").2.1 [[1], [2]] (by decide) (by decide)⟩

/-- C1 counterexample: the claim's parenthetical reading - the last layer to
define a non-function field wins wholesale - fails for className fields: with
base className a and direct className b the resolved value keeps both
classes, not just the direct layer's value. -/
theorem resolve_precedence_counterexample :
    lookp "className" (resolve (fun s => s)
        { base := [("className", Value.cls ["a"])] }
        [("className", Value.cls ["b"])]) = some (Value.cls ["a", "b"]) ∧
    some (Value.cls ["a", "b"]) ≠ some (Value.cls ["b"]) := by
  constructor
  · decide
  · decide

/-- C2: a prop name that is function-valued in every contributing layer
resolves to the chain of all the layers' captured handlers in layer order
(base, variants, compound variants, direct), and one invocation of the
merged prop fires each captured handler exactly once, in that order, with
the same argument. -/
theorem resolve_function_composition (g : String → String) (cfg : Config)
    (cp : Bag) (k : String) (arg : String) :
    ∀ ls : List (List Nat), 2 ≤ ls.length →
      layerValues k (orderedBags cfg cp) = ls.map Value.fn →
      lookp k (resolve g cfg cp) = some (Value.fn ls.flatten) ∧
      invoke ls.flatten arg = (ls.map (fun l => invoke l arg)).flatten := by
  intro ls hlen h
  have hne : ls ≠ [] := by
    intro hnil
    rw [hnil] at hlen
    simp at hlen
  constructor
  · rw [lookp_resolve, h, mergeVals_fn ls hne]
    rfl
  · unfold invoke
    rw [List.map_flatten]

/-- C2 witness: base, variant and direct onClick handlers compose in order
and one invocation fires each exactly once with the same argument. -/
theorem resolve_function_composition_witness :
    lookp "onClick" (resolve (fun s => s)
        { base := [("onClick", Value.fn [1])],
          variants := [("haptics", [("light", [("onClick", Value.fn [2])])])],
          defaultVariants := [("haptics", "light")] }
        [("onClick", Value.fn [3])]) =
      some (Value.fn ([[1], [2], [3]] : List (List Nat)).flatten) ∧
    invoke ([[1], [2], [3]] : List (List Nat)).flatten "evt" =
      (([[1], [2], [3]] : List (List Nat)).map (fun l => invoke l "evt")).flatten :=
  resolve_function_composition (fun s => s)
    { base := [("onClick", Value.fn [1])],
      variants := [("haptics", [("light", [("onClick", Value.fn [2])])])],
      defaultVariants := [("haptics", "light")] }
    [("onClick", Value.fn [3])] "onClick" "evt" [[1], [2], [3]]
    (by decide) (by decide)

/-- C3: for a declared variant name, the effective value is the call-prop
value when one is supplied (so an explicit call-prop value always overrides
the default, whatever `defaultVariants` holds), else the `defaultVariants`
entry; with neither, the variant contributes no styling. -/
theorem effectiveValue_spec (cfg : Config) (cp : Bag) (n : String)
    (m : List (String × Bag)) (hdecl : lookp n cfg.variants = some m) :
    (∀ s, lookp n cp = some (Value.data s) →
        effectiveValue cfg cp n = some s ∧
        variantContribution cfg cp n m = lookp s m) ∧
    (lookp n cp = none →
        effectiveValue cfg cp n = lookp n cfg.defaultVariants ∧
        (lookp n cfg.defaultVariants = none →
          variantContribution cfg cp n m = none)) := by
  have hsome : (lookp n cfg.variants).isSome = true := by rw [hdecl]; rfl
  constructor
  · intro s hs
    have he : effectiveValue cfg cp n = some s := by
      unfold effectiveValue
      rw [if_pos hsome, hs]
      rfl
    refine ⟨he, ?_⟩
    unfold variantContribution
    rw [he]
    rfl
  · intro hnone
    have he : effectiveValue cfg cp n = lookp n cfg.defaultVariants := by
      unfold effectiveValue
      rw [if_pos hsome, hnone]
    refine ⟨he, fun hd => ?_⟩
    unfold variantContribution
    rw [he, hd]
    rfl

/-- C3 witness: an explicit call prop `size = lg` overrides the default
`size = sm` and selects the `lg` prop bag. -/
theorem effectiveValue_spec_witness :
    effectiveValue
        { variants := [("size", [("lg", [("className", Value.cls ["x"])])])],
          defaultVariants := [("size", "sm")] }
        [("size", Value.data "lg")] "size" = some "lg" ∧
    variantContribution
        { variants := [("size", [("lg", [("className", Value.cls ["x"])])])],
          defaultVariants := [("size", "sm")] }
        [("size", Value.data "lg")] "size"
        [("lg", [("className", Value.cls ["x"])])] =
      lookp "lg" [("lg", [("className", Value.cls ["x"])])] :=
  (effectiveValue_spec
      { variants := [("size", [("lg", [("className", Value.cls ["x"])])])],
        defaultVariants := [("size", "sm")] }
      [("size", Value.data "lg")] "size"
      [("lg", [("className", Value.cls ["x"])])] (by decide)).1 "lg" (by decide)

/-- C4: the bags to merge are ordered base, then variant bags, then compound
bags, then direct pass-through props; the compound segment consists of the
`props` bags of the declared compound entries, kept in declared order and
filtered by matching; and an entry matches iff every one of its conditions
equals the corresponding effective variant value. -/
theorem compound_contribution_spec (cfg : Config) (cp : Bag) :
    orderedBags cfg cp =
      cfg.base :: (variantBags cfg cp ++ compoundBags cfg cp ++
        [passThrough cfg cp]) ∧
    compoundBags cfg cp =
      (cfg.compoundVariants.filter (compoundMatches cfg cp)).map
        (fun cv => cv.props) ∧
    ∀ cv : CompoundVariant, compoundMatches cfg cp cv = true ↔
      ∀ c ∈ cv.conditions, effectiveValue cfg cp c.1 = some c.2 := by
  refine ⟨rfl, rfl, fun cv => ?_⟩
  unfold compoundMatches
  rw [List.all_eq_true]
  constructor
  · intro h c hc
    have h2 := h c hc
    unfold condMatches at h2
    exact of_decide_eq_true h2
  · intro h c hc
    unfold condMatches
    exact decide_eq_true (h c hc)

/-- C4 witness: a compound entry with both its conditions satisfied by the
default variant values matches. -/
theorem compound_contribution_spec_witness :
    compoundMatches
        { variants := [("intent", [("primary", [])]), ("outline", [("on", [])])],
          defaultVariants := [("intent", "primary"), ("outline", "on")],
          compoundVariants :=
            [⟨[("intent", "primary"), ("outline", "on")],
              [("className", Value.cls ["c"])]⟩] }
        []
        ⟨[("intent", "primary"), ("outline", "on")],
          [("className", Value.cls ["c"])]⟩ = true :=
  ((compound_contribution_spec
      { variants := [("intent", [("primary", [])]), ("outline", [("on", [])])],
        defaultVariants := [("intent", "primary"), ("outline", "on")],
        compoundVariants :=
          [⟨[("intent", "primary"), ("outline", "on")],
            [("className", Value.cls ["c"])]⟩] }
      []).2.2
    ⟨[("intent", "primary"), ("outline", "on")],
      [("className", Value.cls ["c"])]⟩).mpr (by decide)

/-- C6: the resolver treats malformed inputs silently - a declared variant
whose effective value has no registered prop bag contributes nothing rather
than failing, and a compound-variant condition naming an undeclared variant
is never satisfied. -/
theorem resolver_total_spec (cfg : Config) (cp : Bag) :
    (∀ (n : String) (m : List (String × Bag)) (v : String),
        lookp n cfg.variants = some m →
        effectiveValue cfg cp n = some v → lookp v m = none →
        variantContribution cfg cp n m = none) ∧
    (∀ (cv : CompoundVariant) (n v : String),
        lookp n cfg.variants = none → (n, v) ∈ cv.conditions →
        compoundMatches cfg cp cv = false) := by
  constructor
  · intro n m v _ he hv
    unfold variantContribution
    rw [he]
    simpa using hv
  · intro cv n v hn hmem
    have heff : effectiveValue cfg cp n = none := by
      unfold effectiveValue
      rw [hn]
      rfl
    unfold compoundMatches
    cases hall : cv.conditions.all (condMatches cfg cp) with
    | false => rfl
    | true =>
      exfalso
      have h2 := (List.all_eq_true.mp hall) (n, v) hmem
      unfold condMatches at h2
      have h3 := of_decide_eq_true h2
      rw [heff] at h3
      exact Option.noConfusion h3

/-- C6 witness: an out-of-range effective value contributes no bag, and a
condition on the undeclared variant name ghost never matches. -/
theorem resolver_total_spec_witness :
    variantContribution
        { variants := [("size", [("lg", [])])],
          defaultVariants := [("size", "xl")] }
        [] "size" [("lg", [])] = none ∧
    compoundMatches
        { compoundVariants := [⟨[("ghost", "x")], []⟩] } []
        ⟨[("ghost", "x")], []⟩ = false :=
  ⟨(resolver_total_spec
      { variants := [("size", [("lg", [])])],
        defaultVariants := [("size", "xl")] } []).1
      "size" [("lg", [])] "xl" (by decide) (by decide) (by decide),
   (resolver_total_spec
      { compoundVariants := [⟨[("ghost", "x")], []⟩] } []).2
      ⟨[("ghost", "x")], []⟩ "ghost" "x" (by decide) (by decide)⟩

/-- C5 (amended): in the resolved className, within every utility group the
surviving tokens are exactly the last-declared token of that group in merge
order (so non-conflicting classes from all layers are all present,
deduplicated, and each conflicting group keeps exactly one class), every
surviving token was contributed by some layer, and in the spec's example the
resolved className is exactly px-2 (the last-declared px utility, from the
call props) together with text-red-500. -/
theorem className_merge_spec (g : String → String) (ts : List String) :
    (∀ c, (twMerge g ts).filter (fun u => decide (g u = c)) =
        ((ts.filter (fun u => decide (g u = c))).getLast?).toList) ∧
    (∀ u ∈ twMerge g ts, u ∈ ts) ∧
    lookp "className" (resolve twGroupPx
        { base := [("className", Value.cls ["px-2"])],
          variants :=
            [("size", [("lg", [("className", Value.cls ["px-2", "px-6"])])])],
          defaultVariants := [("size", "lg")] }
        [("className", Value.cls ["px-2", "text-red-500"])]) =
      some (Value.cls ["px-2", "text-red-500"]) :=
  ⟨twMerge_filter g ts, twMerge_subset g ts, by decide⟩

/-- C5 witness: a surviving token of a concrete merge is a contributed
token. -/
theorem className_merge_spec_witness :
    "a" ∈ (["a", "b"] : List String) :=
  (className_merge_spec (fun s => s) ["a", "b"]).2.1 "a" (by decide)

/-- C5 counterexample: in the spec's example the resolved className does not
contain px-6 - the px group is resolved toward the last-declared px utility,
the px-2 of the call props - contradicting the claim that px-6 is present. -/
theorem className_merge_counterexample :
    lookp "className" (resolve twGroupPx
        { base := [("className", Value.cls ["px-2"])],
          variants :=
            [("size", [("lg", [("className", Value.cls ["px-2", "px-6"])])])],
          defaultVariants := [("size", "lg")] }
        [("className", Value.cls ["px-2", "text-red-500"])]) =
      some (Value.cls ["px-2", "text-red-500"]) ∧
    ("px-6" ∈ (["px-2", "text-red-500"] : List String) → False) := by
  constructor
  · decide
  · decide

/-- C7 (amended): variant-name keys of the call props are removed before
merging, and for a prop name not defined by any config-derived bag (base,
variant, or compound bag): when it is a declared variant name the resolved
output omits it, and otherwise the call prop passes through to the output
unchanged up to the final className conflict resolution. -/
theorem prop_forwarding_spec (g : String → String) (cfg : Config) (cp : Bag)
    (k : String) :
    ((lookp k cfg.variants).isSome = true →
      lookp k (passThrough cfg cp) = none) ∧
    (lookp k cfg.base = none →
      (∀ b ∈ variantBags cfg cp, lookp k b = none) →
      (∀ b ∈ compoundBags cfg cp, lookp k b = none) →
      ((lookp k cfg.variants).isSome = true →
        lookp k (resolve g cfg cp) = none) ∧
      ((lookp k cfg.variants).isSome = false →
        lookp k (resolve g cfg cp) = (lookp k cp).map (finalizeValue g))) := by
  refine ⟨passThrough_lookp_declared cfg cp k, ?_⟩
  intro hbase hvar hcomp
  constructor
  · intro hdecl
    rw [lookp_resolve_eq_pass g cfg cp k hbase hvar hcomp,
      passThrough_lookp_declared cfg cp k hdecl]
    rfl
  · intro hundecl
    rw [lookp_resolve_eq_pass g cfg cp k hbase hvar hcomp,
      passThrough_lookp_undeclared cfg cp k hundecl]

/-- C7 witness: the declared variant name size is absent from the resolved
output while the undeclared call prop title passes through. -/
theorem prop_forwarding_spec_witness :
    lookp "size" (resolve (fun s => s)
        { variants := [("size", [("lg", [("className", Value.cls ["x"])])])] }
        [("size", Value.data "zz"), ("title", Value.data "t")]) = none ∧
    lookp "title" (resolve (fun s => s)
        { variants := [("size", [("lg", [("className", Value.cls ["x"])])])] }
        [("size", Value.data "zz"), ("title", Value.data "t")]) =
      (lookp "title" [("size", Value.data "zz"), ("title", Value.data "t")]).map
        (finalizeValue (fun s => s)) :=
  ⟨((prop_forwarding_spec (fun s => s)
      { variants := [("size", [("lg", [("className", Value.cls ["x"])])])] }
      [("size", Value.data "zz"), ("title", Value.data "t")] "size").2
      (by decide) (by decide) (by decide)).1 (by decide),
   ((prop_forwarding_spec (fun s => s)
      { variants := [("size", [("lg", [("className", Value.cls ["x"])])])] }
      [("size", Value.data "zz"), ("title", Value.data "t")] "title").2
      (by decide) (by decide) (by decide)).2 (by decide)⟩

/-- C7 counterexample: when a config bag itself uses a declared variant name
as a prop key the resolved output does contain that variant-name key,
contradicting the claim that the output never contains one. -/
theorem prop_forwarding_counterexample :
    lookp "intent" (resolve (fun s => s)
        { base := [("intent", Value.data "x")],
          variants := [("intent", [("p", [])])] } []) =
      some (Value.data "x") ∧
    some (Value.data "x") ≠ (none : Option Value) := by
  constructor
  · decide
  · decide

/-- C8 (amended): with no variants and no compound variants, resolve returns
exactly the base bag merged with the call props, per-field; a conflicting
plain-data direct prop wins over the base value, while className, style and
function fields merge with the direct layer taking precedence (functions
composing base first, direct second). -/
theorem no_variants_resolve (g : String → String) (cfg : Config) (cp : Bag)
    (h1 : cfg.variants = []) (h2 : cfg.compoundVariants = []) :
    resolve g cfg cp = finalize g (mergeBags cfg.base cp) ∧
    (∀ k, lookp k (resolve g cfg cp) =
      (omerge (lookp k cfg.base) (lookp k cp)).map (finalizeValue g)) ∧
    (∀ k s, lookp k cp = some (Value.data s) →
      lookp k (resolve g cfg cp) = some (Value.data s)) := by
  have hpass : passThrough cfg cp = cp := by
    unfold passThrough
    rw [h1]
    apply List.filter_eq_self.mpr
    intro p _
    simp [lookp]
  have hvb : variantBags cfg cp = [] := by
    unfold variantBags
    rw [h1]
    rfl
  have hcb : compoundBags cfg cp = [] := by
    unfold compoundBags
    rw [h2]
    rfl
  have horder : orderedBags cfg cp = [cfg.base, cp] := by
    unfold orderedBags
    rw [hvb, hcb, hpass]
    rfl
  have hres : resolve g cfg cp = finalize g (mergeBags cfg.base cp) := by
    rw [resolve, horder, List.foldl_cons, List.foldl_cons, List.foldl_nil,
      mergeBags_nil_left]
  have hlook : ∀ k, lookp k (resolve g cfg cp) =
      (omerge (lookp k cfg.base) (lookp k cp)).map (finalizeValue g) := by
    intro k
    rw [hres, lookp_finalize, lookp_mergeBags]
  refine ⟨hres, hlook, ?_⟩
  intro k s hk
  rw [hlook k, hk]
  cases hb : lookp k cfg.base with
  | none => rfl
  | some v =>
    have hm : omerge (some v) (some (Value.data s)) =
        some (merge2 v (Value.data s)) := rfl
    rw [hm, merge2_data]
    rfl

/-- C8 witness: with a variant-free configuration a conflicting plain direct
prop wins over base. -/
theorem no_variants_resolve_witness :
    lookp "id" (resolve (fun s => s)
        { base := [("id", Value.data "a")] } [("id", Value.data "b")]) =
      some (Value.data "b") :=
  (no_variants_resolve (fun s => s) { base := [("id", Value.data "a")] }
    [("id", Value.data "b")] (by decide) (by decide)).2.2 "id" "b" (by decide)

/-- C8 counterexample: the claim that direct call props win on every
conflicting field fails for function-valued props - with no variants at all,
a base onPress and a direct onPress compose (both handlers kept, base first)
instead of the direct one overriding. -/
theorem no_variants_resolve_counterexample :
    lookp "onPress" (resolve (fun s => s)
        { base := [("onPress", Value.fn [1])] } [("onPress", Value.fn [2])]) =
      some (Value.fn [1, 2]) ∧
    some (Value.fn [1, 2]) ≠ some (Value.fn [2]) := by
  constructor
  · decide
  · decide

/-- C9: useSlot attaches every slot-map entry as an addressable static child
of the root unit without changing the root's invocation behaviour, and
attached slots keep their own sub-slots, giving nested
Compound.Part.SubPart addressing. -/
theorem useSlot_spec (root : StyledUnit) (m : List (String × StyledUnit))
    (g : String → String) :
    (∀ n u, lookp n m = some u → (useSlot root m).getSlot n = some u) ∧
    (∀ cp, (useSlot root m).invokeWith g cp = root.invokeWith g cp) ∧
    (∀ n u p v, lookp n m = some u → u.getSlot p = some v →
      ((useSlot root m).getSlot n).bind (fun w => StyledUnit.getSlot w p) =
        some v) := by
  obtain ⟨c, cfg, slots⟩ := root
  have hget : ∀ n u, lookp n m = some u →
      (useSlot (StyledUnit.mk c cfg slots) m).getSlot n = some u := by
    intro n u h
    unfold useSlot StyledUnit.getSlot
    exact lookp_append_some _ h
  refine ⟨hget, fun cp => rfl, ?_⟩
  intro n u p v h hp
  rw [hget n u h]
  exact hp

/-- C9 witness: a compound unit exposes the attached Header slot unchanged
and invokes exactly as its root does. -/
theorem useSlot_spec_witness :
    (useSlot (useStyled "div" {}) [("Header", useStyled "header" {})]).getSlot
        "Header" = some (useStyled "header" {}) ∧
    (useSlot (useStyled "div" {}) [("Header", useStyled "header" {})]).invokeWith
        (fun s => s) [] = (useStyled "div" {}).invokeWith (fun s => s) [] :=
  ⟨(useSlot_spec (useStyled "div" {}) [("Header", useStyled "header" {})]
      (fun s => s)).1 "Header" (useStyled "header" {})
      (lookp_cons_self "Header" (useStyled "header" {}) []),
   (useSlot_spec (useStyled "div" {}) [("Header", useStyled "header" {})]
      (fun s => s)).2.1 []⟩

/-- C10: the bags contributed by the compound-variant stage are exactly the
`props` bags of the matching declared entries, and the condition keys
themselves contribute nothing: a key defined by no layer bag is absent from
the resolved output even when it occurs in a matching entry's conditions. -/
theorem compound_props_only (cfg : Config) (cp : Bag) :
    (∀ b : Bag, b ∈ compoundBags cfg cp ↔
      ∃ cv : CompoundVariant, cv ∈ cfg.compoundVariants ∧
        compoundMatches cfg cp cv = true ∧ b = cv.props) ∧
    (∀ k, lookp k cfg.base = none →
      (∀ b ∈ variantBags cfg cp, lookp k b = none) →
      (∀ cv ∈ cfg.compoundVariants, lookp k cv.props = none) →
      lookp k (passThrough cfg cp) = none →
      ∀ g : String → String, lookp k (resolve g cfg cp) = none) := by
  have hmem : ∀ b : Bag, b ∈ compoundBags cfg cp ↔
      ∃ cv : CompoundVariant, cv ∈ cfg.compoundVariants ∧
        compoundMatches cfg cp cv = true ∧ b = cv.props := by
    intro b
    unfold compoundBags
    rw [List.mem_map]
    constructor
    · rintro ⟨cv, hcv, rfl⟩
      obtain ⟨hm, hmatch⟩ := List.mem_filter.mp hcv
      exact ⟨cv, hm, hmatch, rfl⟩
    · rintro ⟨cv, hm, hmatch, rfl⟩
      exact ⟨cv, List.mem_filter.mpr ⟨hm, hmatch⟩, rfl⟩
  refine ⟨hmem, ?_⟩
  intro k hbase hvar hcomp hpass g
  have hcb : ∀ b ∈ compoundBags cfg cp, lookp k b = none := by
    intro b hb
    obtain ⟨cv, hm, _, rfl⟩ := (hmem b).mp hb
    exact hcomp cv hm
  rw [lookp_resolve_eq_pass g cfg cp k hbase hvar hcb, hpass]
  rfl

/-- C10 witness: a matching compound entry contributes only its props bag -
its condition keys intent and disabled are absent from the resolved output
even though the entry matched and contributed its className. -/
theorem compound_props_only_witness :
    lookp "intent" (resolve (fun s => s)
        { variants :=
            [("intent", [("p", [("className", Value.cls ["b"])])]),
             ("disabled", [("t", [])])],
          defaultVariants := [("intent", "p"), ("disabled", "t")],
          compoundVariants :=
            [⟨[("intent", "p"), ("disabled", "t")],
              [("className", Value.cls ["c"])]⟩] } []) = none :=
  (compound_props_only
      { variants :=
          [("intent", [("p", [("className", Value.cls ["b"])])]),
           ("disabled", [("t", [])])],
        defaultVariants := [("intent", "p"), ("disabled", "t")],
        compoundVariants :=
          [⟨[("intent", "p"), ("disabled", "t")],
            [("className", Value.cls ["c"])]⟩] } []).2
    "intent" (by decide) (by decide) (by decide) (by decide) (fun s => s)

end UseStyled
